import Mathlib

/-!
Verification development for the persistency-manager core of the repository
(`src/managers.py`): the website-key extractor, the BigQuery-backed queryable
store with its single-slot URL cache, the GCS-backed blob store, and the
`GCPPersistencyManager` façade.  Python functions are shallowly embedded as
Lean functions; the remote stores are embedded as explicit state records and
state-passing functions; Python exceptions are embedded as `Option`/`Except`.
-/

/-! ## Python value model (needed for the pandas `in` semantics) -/

/-- A Python value as far as equality tests in this code are concerned:
either an integer (pandas range-index entries) or a string (URLs). -/
inductive PyVal where
  | int : Int → PyVal
  | str : String → PyVal
deriving DecidableEq, Repr

/-- A pandas `Series`: a sequence of values together with an index. -/
structure PySeries where
  index : List PyVal
  values : List PyVal
deriving DecidableEq, Repr

/-- Models the Python expression `x in series` for a pandas `Series`:
`Series.__contains__` tests membership against the *index* of the series,
not against its values. -/
def PySeries.containsKey (s : PySeries) (v : PyVal) : Bool :=
  s.index.contains v

/-- The dataframe produced by the known-URLs query: a single `url` column.
`to_dataframe()` equips it with a default integer `RangeIndex`. -/
structure UrlDataFrame where
  urls : List String
deriving DecidableEq, Repr

/-- The `url` column of the dataframe, as a pandas `Series` with its
default `RangeIndex` of `0, 1, ..., n-1`. -/
def UrlDataFrame.urlSeries (df : UrlDataFrame) : PySeries :=
  ⟨(List.range df.urls.length).map PyVal.int, df.urls.map PyVal.str⟩

/-! ## UTF-8 (models Python `str.encode("utf-8")` / `bytes.decode("utf-8")`)

Python byte strings are embedded as `List Nat` (each element `< 256`); Python
text strings are embedded as Lean `String` (sequences of unicode scalar
values, which is what well-formed Python text is). -/

/-- UTF-8 encoding of a single unicode scalar value (standard 1- to 4-byte
encoding, which is what CPython's `str.encode("utf-8")` emits per character). -/
def utf8EncodeChar (c : Char) : List Nat :=
  if c.toNat < 0x80 then [c.toNat]
  else if c.toNat < 0x800 then [0xC0 + c.toNat / 64, 0x80 + c.toNat % 64]
  else if c.toNat < 0x10000 then
    [0xE0 + c.toNat / 4096, 0x80 + c.toNat / 64 % 64, 0x80 + c.toNat % 64]
  else
    [0xF0 + c.toNat / 262144, 0x80 + c.toNat / 4096 % 64, 0x80 + c.toNat / 64 % 64,
     0x80 + c.toNat % 64]

/-- Models `str.encode("utf-8")`: the concatenation of the per-character
encodings.  (Total on Lean strings: every Lean `Char` is a valid scalar
value, so the encode step of CPython never raises here.) -/
def strEncodeUtf8 (s : String) : List Nat :=
  (s.data.map utf8EncodeChar).flatten

/-- One decoding step per recursion, with `fuel` bounding the number of
decoded characters.  Returns `none` on malformed input (stray continuation
byte, overlong form, surrogate, out-of-range scalar, truncated sequence),
mirroring CPython's strict `bytes.decode("utf-8")`. -/
def utf8DecodeAux : Nat → List Nat → Option (List Char)
  | _, [] => some []
  | 0, _ :: _ => none
  | fuel + 1, b0 :: rest =>
    if b0 < 0x80 then
      (utf8DecodeAux fuel rest).map (fun cs => Char.ofNat b0 :: cs)
    else if b0 < 0xC2 then none
    else if b0 < 0xE0 then
      match rest with
      | b1 :: rest1 =>
        if 0x80 ≤ b1 ∧ b1 < 0xC0 then
          (utf8DecodeAux fuel rest1).map
            (fun cs => Char.ofNat ((b0 - 0xC0) * 64 + (b1 - 0x80)) :: cs)
        else none
      | [] => none
    else if b0 < 0xF0 then
      match rest with
      | b1 :: b2 :: rest2 =>
        if 0x80 ≤ b1 ∧ b1 < 0xC0 ∧ 0x80 ≤ b2 ∧ b2 < 0xC0 then
          let m := (b0 - 0xE0) * 4096 + (b1 - 0x80) * 64 + (b2 - 0x80)
          if m < 0x800 ∨ (0xD800 ≤ m ∧ m < 0xE000) then none
          else (utf8DecodeAux fuel rest2).map (fun cs => Char.ofNat m :: cs)
        else none
      | _ => none
    else if b0 < 0xF5 then
      match rest with
      | b1 :: b2 :: b3 :: rest3 =>
        if 0x80 ≤ b1 ∧ b1 < 0xC0 ∧ 0x80 ≤ b2 ∧ b2 < 0xC0 ∧ 0x80 ≤ b3 ∧ b3 < 0xC0 then
          let m := (b0 - 0xF0) * 262144 + (b1 - 0x80) * 4096 + (b2 - 0x80) * 64 + (b3 - 0x80)
          if m < 0x10000 ∨ 0x110000 ≤ m then none
          else (utf8DecodeAux fuel rest3).map (fun cs => Char.ofNat m :: cs)
        else none
      | _ => none
    else none

/-- Models `bytes.decode("utf-8")`: `none` is CPython's `UnicodeDecodeError`.
A decoded text has at most as many characters as the input has bytes, so the
input length is enough fuel. -/
def bytesDecodeUtf8 (bs : List Nat) : Option String :=
  (utf8DecodeAux bs.length bs).map (fun cs => String.mk cs)

/-! ## The website-key extractor (`extract_website_from_url`)

`src/managers.py` applies `re.search` with the pattern `(\w+\.)+\w+` to the
URL and returns the matched text, raising `LookupError` ("MalformedURL" in
the spec's taxonomy) when there is no match.  The model implements the
leftmost search with Python's greedy quantifier semantics, which for this
pattern is deterministic: at the leftmost viable position the match is the
maximal chain of word-character runs separated by single dots, ending on a
word character. -/

/-- Models Python's `\w` (over its ASCII range, which is the range the URLs
handled by this repository draw from): letters, digits and underscore. -/
def isWordChar (c : Char) : Bool :=
  c.isAlphanum || c == '_'

/-- Greedily consumes `(\.\w+)*` from the front of `t`; returns the consumed
part and the remainder.  `fuel` bounds the number of dot groups (each group
consumes at least two characters, so `t.length` is enough fuel). -/
def matchDots : Nat → List Char → List Char × List Char
  | _, [] => ([], [])
  | 0, t => ([], t)
  | fuel + 1, c :: rest =>
    if c = '.' then
      if rest.takeWhile isWordChar = [] then ([], c :: rest)
      else
        let p := matchDots fuel (rest.dropWhile isWordChar)
        (c :: (rest.takeWhile isWordChar ++ p.1), p.2)
    else ([], c :: rest)

/-- Continuation of the anchored match after the leading word run `w1`: the
remainder must continue with a dot and a word run, after which further
dot-and-run groups are consumed greedily. -/
def matchAfterRun (w1 : List Char) : List Char → Option (List Char)
  | c :: r2 =>
    if c = '.' then
      if r2.takeWhile isWordChar = [] then none
      else
        some (w1 ++
          c :: (r2.takeWhile isWordChar ++ (matchDots r2.length (r2.dropWhile isWordChar)).1))
    else none
  | [] => none

/-- Greedy match of `(\w+\.)+\w+` anchored at the front of `t`: a word run,
a dot, a word run, then as many further dot-and-run groups as possible. -/
def matchAt (t : List Char) : Option (List Char) :=
  if t.takeWhile isWordChar = [] then none
  else matchAfterRun (t.takeWhile isWordChar) (t.dropWhile isWordChar)

/-- Models `re.search`: try the pattern at each position, leftmost first. -/
def reSearchList : List Char → Option (List Char)
  | [] => none
  | c :: rest =>
    match matchAt (c :: rest) with
    | some m => some m
    | none => reSearchList rest

/-- Embeds `extract_website_from_url` of `src/managers.py`; `none` is the
raised `LookupError` (the spec's `MalformedURL`). -/
def extract_website_from_url (url : String) : Option String :=
  (reSearchList url.data).map (fun cs => String.mk cs)

/-- Declarative reading of the pattern `(\w+\.)+\w+` as used by the spec:
"one-or-more dot-separated label groups followed by a top label".
`dotJoined [r1, ..., rn]` is `r1.r2.....rn`. -/
def dotJoined : List (List Char) → List Char
  | [] => []
  | [r] => r
  | r :: rs => r ++ '.' :: dotJoined rs

/-- A word (string of characters) is a full match of `(\w+\.)+\w+`: at least
two nonempty word-character runs joined by single dots. -/
def WebsiteMatch (w : List Char) : Prop :=
  ∃ runs : List (List Char), 2 ≤ runs.length ∧
    (∀ r ∈ runs, r ≠ [] ∧ ∀ c ∈ r, isWordChar c) ∧ w = dotJoined runs

/-! ## Data model -/

/-- The fields of a `ScrapedData` record (from the external `c4v` library)
that `src/managers.py` reads and writes: text fields, the category labels,
the URL, the timestamp-like `last_scraped`, and the nullable classification
metadata `label`/`source`. -/
structure ScrapedData where
  url : String
  title : String
  content : String
  author : String
  date : String
  categories : List String
  last_scraped : String
  label : Option String
  source : Option String
deriving DecidableEq, Repr

/-- A row of the scrap table, as built by `extract_database_fields`: text
fields UTF-8 encoded to bytes, the derived `website` key, and `label` /
`source` forced to `None` at save time. -/
structure DatabaseRow where
  title : List Nat
  content : List Nat
  author : List Nat
  date : List Nat
  categories : List (List Nat)
  url : String
  website : String
  last_scraped : String
  label : Option String
  source : Option String
deriving DecidableEq, Repr

/-- Errors of the manager layer.  `malformedURL u` embeds the `LookupError`
raised by `extract_website_from_url` on input `u` (the spec's
`MalformedURL`). -/
inductive ManagerError where
  | malformedURL : String → ManagerError
deriving DecidableEq, Repr

/-! ## `BigQueryService` (the queryable store)

The remote table plus the service's private single-slot cache
(`self.cached_scraped_urls`) are embedded as one state record;
`remote_queries` counts the query jobs issued to the remote client
(`self.client.query`). -/

structure BigQueryState where
  table : List DatabaseRow
  cached_scraped_urls : Option (String × UrlDataFrame)
  remote_queries : Nat
deriving DecidableEq, Repr

/-- Modelled from the spec: the SQL template `get_scraped_urls.sql` (under
`bq_sql/`, a repository file not present in `src/`) selects the `url` column
of the rows of the scrap table whose `website` equals the given website key;
the client's `to_dataframe()` returns them with a default integer range
index. -/
def scraped_urls_query (table : List DatabaseRow) (website : String) : UrlDataFrame :=
  ⟨(table.filter (fun r => r.website == website)).map (fun r => r.url)⟩

/-- Embeds `BigQueryService.get_scraped_urls_by_website`: answer from the
single-slot cache when its key matches, otherwise run the remote query and
replace the cache entry. -/
def BigQueryService.get_scraped_urls_by_website (st : BigQueryState) (website : String) :
    UrlDataFrame × BigQueryState :=
  match st.cached_scraped_urls with
  | some (w, data) =>
    if w == website then (data, st)
    else
      let df := scraped_urls_query st.table website
      (df, { st with cached_scraped_urls := some (website, df),
                     remote_queries := st.remote_queries + 1 })
  | none =>
    let df := scraped_urls_query st.table website
    (df, { st with cached_scraped_urls := some (website, df),
                   remote_queries := st.remote_queries + 1 })

/-- Embeds `BigQueryService.save`: `insert_rows_from_dataframe` appends the
rows to the remote table (bulk insert, not a query job; no uniqueness
enforcement).  The cache is not touched. -/
def BigQueryService.save (st : BigQueryState) (database_rows : List DatabaseRow) :
    BigQueryState :=
  { st with table := st.table ++ database_rows }

/-- Embeds `BigQueryService.delete`.  Modelled from the spec for the SQL
template `delete_scraped_urls.sql` (not present in `src/`): removes every row
whose `url` is in the given list; one query job is issued.  The cache is not
touched. -/
def BigQueryService.delete (st : BigQueryState) (urls : List String) : BigQueryState :=
  { st with table := st.table.filter (fun r => !(urls.contains r.url)),
            remote_queries := st.remote_queries + 1 }

/-- Embeds `BigQueryService.get_all` (note: it accepts only `limit`, no
`scraped` argument).  Modelled from the spec for the SQL template
`select_star_limit.sql` (not present in `src/`): a bounded select returning
up to `limit` rows; one query job is issued. -/
def BigQueryService.get_all (st : BigQueryState) (limit : Nat) :
    List DatabaseRow × BigQueryState :=
  (st.table.take limit, { st with remote_queries := st.remote_queries + 1 })

/-! ## `GCPPersistencyManager` (the façade) -/

/-- Embeds `GCPPersistencyManager.filter_website_scraped_urls`: fetch the
known-URL dataframe for the website and keep the input URLs `url` with
`url not in scraped_urls["url"]` — the pandas membership test against the
series (which tests the index). -/
def GCPPersistencyManager.filter_website_scraped_urls (st : BigQueryState) (website : String)
    (website_urls : List String) : List String × BigQueryState :=
  let p := BigQueryService.get_scraped_urls_by_website st website
  (website_urls.filter (fun url => !(p.1.urlSeries.containsKey (PyVal.str url))), p.2)

/-- Evaluates `extract_website_from_url` on every URL of the batch, stopping
at the first failure — the Python list comprehension
`[extract_website_from_url(url) for url in urls]` with its exception. -/
def extractWebsites : List String → Except ManagerError (List String)
  | [] => .ok []
  | u :: us =>
    match extract_website_from_url u with
    | none => .error (.malformedURL u)
    | some w =>
      match extractWebsites us with
      | .error e => .error e
      | .ok ws => .ok (w :: ws)

/-- First-occurrence deduplication, with `seen` accumulating the keys already
emitted. -/
def dedupFirstAux (seen : List String) : List String → List String
  | [] => []
  | x :: xs =>
    if seen.contains x then dedupFirstAux seen xs
    else x :: dedupFirstAux (x :: seen) xs

/-- Models `set(...)` followed by repeated `.pop()` in `filter_scraped_urls`:
the distinct website keys, each exactly once.  CPython's set iteration order
is unspecified; the model fixes it to first-occurrence order (the claims
under verification treat the group order as arbitrary). -/
def dedupFirst (l : List String) : List String :=
  dedupFirstAux [] l

/-- The URL group of one website inside `filter_scraped_urls`:
`[url for url in urls if extract_website_from_url(url) == website]`. -/
def urlsGroup (urls : List String) (website : String) : List String :=
  urls.filter (fun u => extract_website_from_url u == some website)

/-- The `while len(urls_website) > 0` loop of `filter_scraped_urls`: one
`filter_website_scraped_urls` call per distinct website, results
concatenated in pop order. -/
def filterScrapedUrlsLoop (st : BigQueryState) (urls : List String) :
    List String → List String × BigQueryState
  | [] => ([], st)
  | website :: rest =>
    let p := GCPPersistencyManager.filter_website_scraped_urls st website (urlsGroup urls website)
    let q := filterScrapedUrlsLoop p.2 urls rest
    (p.1 ++ q.1, q.2)

/-- Embeds `GCPPersistencyManager.filter_scraped_urls`. -/
def GCPPersistencyManager.filter_scraped_urls (st : BigQueryState) (urls : List String) :
    Except ManagerError (List String × BigQueryState) :=
  match extractWebsites urls with
  | .error e => .error e
  | .ok websites => .ok (filterScrapedUrlsLoop st urls (dedupFirst websites))

/-- Embeds `GCPPersistencyManager.was_scraped`: the URL is considered scraped
iff filtering the singleton batch for its own website returns the empty
list. -/
def GCPPersistencyManager.was_scraped (st : BigQueryState) (url : String) :
    Except ManagerError (Bool × BigQueryState) :=
  match extract_website_from_url url with
  | none => .error (.malformedURL url)
  | some url_website =>
    let p := GCPPersistencyManager.filter_website_scraped_urls st url_website [url]
    .ok (decide (p.1.length = 0), p.2)

/-- Embeds `GCPPersistencyManager.extract_database_fields`: UTF-8 encode the
text fields, derive the `website` key (raising on a malformed URL), force
`label`/`source` to `None`. -/
def GCPPersistencyManager.extract_database_fields (scraped_data : ScrapedData) :
    Except ManagerError DatabaseRow :=
  match extract_website_from_url scraped_data.url with
  | none => .error (.malformedURL scraped_data.url)
  | some website =>
    .ok { title := strEncodeUtf8 scraped_data.title,
          content := strEncodeUtf8 scraped_data.content,
          author := strEncodeUtf8 scraped_data.author,
          date := strEncodeUtf8 scraped_data.date,
          categories := scraped_data.categories.map strEncodeUtf8,
          url := scraped_data.url,
          website := website,
          last_scraped := scraped_data.last_scraped,
          label := none,
          source := none }

/-- The list comprehension in `GCPPersistencyManager.save`: encode every
record of the batch, stopping at the first malformed URL.  The comprehension
is fully evaluated before anything is sent to the store. -/
def extractRows : List ScrapedData → Except ManagerError (List DatabaseRow)
  | [] => .ok []
  | sd :: sds =>
    match GCPPersistencyManager.extract_database_fields sd with
    | .error e => .error e
    | .ok row =>
      match extractRows sds with
      | .error e => .error e
      | .ok rows => .ok (row :: rows)

/-- Embeds `GCPPersistencyManager.save`: on `.error` the exception has
propagated before `BigQueryService.save` ran, so the store state is the
unchanged `st`. -/
def GCPPersistencyManager.save (st : BigQueryState) (url_data : List ScrapedData) :
    Except ManagerError BigQueryState :=
  match extractRows url_data with
  | .error e => .error e
  | .ok rows => .ok (BigQueryService.save st rows)

/-- Embeds `GCPPersistencyManager.delete`: direct delegation. -/
def GCPPersistencyManager.delete (st : BigQueryState) (urls : List String) : BigQueryState :=
  BigQueryService.delete st urls

/-- Decoding of one fetched row back to a `ScrapedData`, as the body of
`GCPPersistencyManager.get_all` does it: UTF-8 decode the byte fields
(`none` embeds the `UnicodeDecodeError` the generator would raise at this
row). -/
def decodeRow (row : DatabaseRow) : Option ScrapedData :=
  match bytesDecodeUtf8 row.title, bytesDecodeUtf8 row.content, bytesDecodeUtf8 row.author,
      row.categories.mapM bytesDecodeUtf8, bytesDecodeUtf8 row.date with
  | some t, some c, some a, some cats, some d =>
    some { url := row.url, last_scraped := row.last_scraped, title := t, content := c,
           author := a, categories := cats, date := d, label := none, source := none }
  | _, _, _, _, _ => none

/-- Embeds `GCPPersistencyManager.get_all`: it accepts `scraped` but calls
`self.bigquery_service.get_all(limit=limit)`, never forwarding it.  The
yielded sequence is embedded as the list of per-row decode results. -/
def GCPPersistencyManager.get_all (st : BigQueryState) (limit : Nat) (scraped : Option Bool) :
    List (Option ScrapedData) × BigQueryState :=
  let p := BigQueryService.get_all st limit
  (p.1.map decodeRow, p.2)

/-- Modelled from the spec: a row "known to have content" (the reading of
the `scraped` filter in `DatabaseService.get_all`'s contract) is one with a
nonempty scraped `content` payload. -/
def DatabaseRow.hasScrapedContent (r : DatabaseRow) : Bool :=
  !r.content.isEmpty

/-! ## `GCSService` (the blob store) and the manager's temp-file helpers -/

/-- The blob-store service: `bucketRoot` embeds the source's store-level
prefix field (constructor argument + `"/scraped_data"`), `bucketBlobs` the
names present in the remote bucket. -/
structure GCSService where
  bucketRoot : String
  bucketBlobs : List String
deriving DecidableEq, Repr

/-- Models Python `s.startswith(p)`. -/
def pyStartsWith (s p : String) : Bool :=
  p.data.isPrefixOf s.data

/-- Embeds the `blob_name` computation of `GCSService.get_byte_stream`: the
blob name requested from the bucket (the downloaded stream itself is outside
the model). -/
def GCSService.get_byte_stream_blob_name (svc : GCSService) (filepath : String) : String :=
  if pyStartsWith filepath svc.bucketRoot then filepath
  else svc.bucketRoot ++ "/" ++ filepath

/-- Embeds `GCSService.list_files` (with the `delimiter` argument left at its
default `None`, which is how the manager calls it).  Modelled from the GCS
client's `list_blobs`: returns the names of the blobs whose full name starts
with the requested prefix. -/
def GCSService.list_files (svc : GCSService) (pref : Option String) : List String :=
  let fullPref := match pref with
    | none => svc.bucketRoot
    | some p => svc.bucketRoot ++ "/" ++ p
  svc.bucketBlobs.filter (fun n => pyStartsWith n fullPref)

/-- Embeds `GCPPersistencyManager.list_temp_urls` on a manager whose
secondary blob store is `svc` and whose run identifier is `run_id`. -/
def GCPPersistencyManager.list_temp_urls (svc : GCSService) (run_id : String) : List String :=
  GCSService.list_files svc (some run_id)

/-- Embeds `GCPPersistencyManager.get_temp_file`: direct delegation to
`get_byte_stream`; we track the blob name it requests. -/
def GCPPersistencyManager.get_temp_file_blob_name (svc : GCSService) (filename : String) :
    String :=
  GCSService.get_byte_stream_blob_name svc filename

/-! ## Concrete fixtures used by witnesses and counterexamples -/

/-- A stored row for `https://example.com/a` (the known URL of the C2
scenario). -/
def exampleComRow : DatabaseRow :=
  { title := [], content := [], author := [], date := [], categories := [],
    url := "https://example.com/a", website := "example.com", last_scraped := "",
    label := none, source := none }

/-- Store in which the known URLs for website `example.com` are exactly
`{"https://example.com/a"}`, cache empty. -/
def c2State : BigQueryState := ⟨[exampleComRow], none, 0⟩

def c2Input : List String :=
  ["https://example.com/a", "https://example.com/b", "https://other.org/c"]

/-- A fresh record with URL `https://x.com/1`. -/
def xComRecord : ScrapedData :=
  { url := "https://x.com/1", title := "t", content := "c", author := "a",
    date := "2021-01-01", categories := [], last_scraped := "now",
    label := none, source := none }

/-- A record whose URL cannot be attributed to a website. -/
def badRecord : ScrapedData :=
  { url := "not a url", title := "t", content := "c", author := "a",
    date := "2021-01-01", categories := [], last_scraped := "now",
    label := none, source := none }

/-- A stored row for `https://x.com/1`. -/
def xComRow : DatabaseRow :=
  { title := [], content := [], author := [], date := [], categories := [],
    url := "https://x.com/1", website := "x.com", last_scraped := "",
    label := none, source := none }

/-- State reached by looking up `x.com` on an empty store (populating the
cache) and then saving a row for `x.com` (which does not invalidate it). -/
def c1StaleState : BigQueryState :=
  BigQueryService.save (BigQueryService.get_scraped_urls_by_website ⟨[], none, 0⟩ "x.com").2
    [xComRow]

/-- Cache coherence: whatever the single-slot cache holds is what the remote
query would return against the current table.  Holds after a miss; destroyed
by `save`/`delete` for the cached website (they do not invalidate). -/
def CacheCoherent (st : BigQueryState) : Prop :=
  ∀ w df, st.cached_scraped_urls = some (w, df) → df = scraped_urls_query st.table w

/-- Record with non-ASCII text fields, for the round-trip witness. -/
def c6Record : ScrapedData :=
  { url := "https://x.com/1", title := "Canci\u00f3n", content := "texto \u00f1",
    author := "autor", date := "2021-01-01", categories := ["pol\u00edtica", "econom\u00eda"],
    last_scraped := "2021-01-02", label := none, source := none }

/-- The row `extract_database_fields` builds from `c6Record`. -/
def c6Row : DatabaseRow :=
  { title := strEncodeUtf8 c6Record.title, content := strEncodeUtf8 c6Record.content,
    author := strEncodeUtf8 c6Record.author, date := strEncodeUtf8 c6Record.date,
    categories := c6Record.categories.map strEncodeUtf8, url := c6Record.url,
    website := "x.com", last_scraped := c6Record.last_scraped,
    label := none, source := none }

/-- A stored row with no scraped content (`content` is the empty byte
string), decodable by `get_all`. -/
def c9Row : DatabaseRow :=
  { title := strEncodeUtf8 "t", content := [], author := strEncodeUtf8 "a",
    date := strEncodeUtf8 "2021-01-01", categories := [], url := "https://x.com/2",
    website := "x.com", last_scraped := "", label := none, source := none }

/-- A blob store whose root is `dev/scraped_data` and whose bucket holds one
blob under run `run1`. -/
def c10Svc : GCSService :=
  ⟨"dev/scraped_data", ["dev/scraped_data/run1/urls.csv", "dev/other/file"]⟩

/-! ## General lemmas -/

theorem utf8DecodeAux_encodeChar (c : Char) (fuel : Nat) (rest : List Nat) :
    utf8DecodeAux (fuel + 1) (utf8EncodeChar c ++ rest) =
      (utf8DecodeAux fuel rest).map (fun cs => c :: cs) := by
  have hv : c.toNat < 0xd800 ∨ (0xdfff < c.toNat ∧ c.toNat < 0x110000) := c.valid
  by_cases h1 : c.toNat < 0x80
  · have henc : utf8EncodeChar c = [c.toNat] := by
      simp [utf8EncodeChar, h1]
    rw [henc]
    simp [utf8DecodeAux, h1]
  · by_cases h2 : c.toNat < 0x800
    · have henc : utf8EncodeChar c = [0xC0 + c.toNat / 64, 0x80 + c.toNat % 64] := by
        simp [utf8EncodeChar, h1, h2]
      rw [henc]
      have hb0a : ¬ (0xC0 + c.toNat / 64 < 0x80) := by omega
      have hb0b : ¬ (0xC0 + c.toNat / 64 < 0xC2) := by omega
      have hb0c : 0xC0 + c.toNat / 64 < 0xE0 := by omega
      have hb1 : 0x80 ≤ 0x80 + c.toNat % 64 ∧ 0x80 + c.toNat % 64 < 0xC0 := by omega
      have hm : (0xC0 + c.toNat / 64 - 0xC0) * 64 + (0x80 + c.toNat % 64 - 0x80) = c.toNat := by
        omega
      simp only [List.append_eq, List.cons_append, List.nil_append, utf8DecodeAux,
        if_neg hb0a, if_neg hb0b, if_pos hb0c, if_pos hb1, hm, Char.ofNat_toNat]
    · by_cases h3 : c.toNat < 0x10000
      · have henc : utf8EncodeChar c =
            [0xE0 + c.toNat / 4096, 0x80 + c.toNat / 64 % 64, 0x80 + c.toNat % 64] := by
          simp [utf8EncodeChar, h1, h2, h3]
        rw [henc]
        have hb0a : ¬ (0xE0 + c.toNat / 4096 < 0x80) := by omega
        have hb0b : ¬ (0xE0 + c.toNat / 4096 < 0xC2) := by omega
        have hb0c : ¬ (0xE0 + c.toNat / 4096 < 0xE0) := by omega
        have hb0d : 0xE0 + c.toNat / 4096 < 0xF0 := by omega
        have hb12 : 0x80 ≤ 0x80 + c.toNat / 64 % 64 ∧ 0x80 + c.toNat / 64 % 64 < 0xC0 ∧
            0x80 ≤ 0x80 + c.toNat % 64 ∧ 0x80 + c.toNat % 64 < 0xC0 := by omega
        have hm : (0xE0 + c.toNat / 4096 - 0xE0) * 4096 +
            (0x80 + c.toNat / 64 % 64 - 0x80) * 64 + (0x80 + c.toNat % 64 - 0x80) = c.toNat := by
          omega
        have hrange : ¬ (c.toNat < 0x800 ∨ (0xD800 ≤ c.toNat ∧ c.toNat < 0xE000)) := by
          omega
        simp only [List.append_eq, List.cons_append, List.nil_append, utf8DecodeAux,
          if_neg hb0a, if_neg hb0b, if_neg hb0c, if_pos hb0d, if_pos hb12, hm,
          if_neg hrange, Char.ofNat_toNat]
      · have henc : utf8EncodeChar c =
            [0xF0 + c.toNat / 262144, 0x80 + c.toNat / 4096 % 64,
             0x80 + c.toNat / 64 % 64, 0x80 + c.toNat % 64] := by
          simp [utf8EncodeChar, h1, h2, h3]
        rw [henc]
        have hcv : c.toNat < 0x110000 := by omega
        have hb0a : ¬ (0xF0 + c.toNat / 262144 < 0x80) := by omega
        have hb0b : ¬ (0xF0 + c.toNat / 262144 < 0xC2) := by omega
        have hb0c : ¬ (0xF0 + c.toNat / 262144 < 0xE0) := by omega
        have hb0d : ¬ (0xF0 + c.toNat / 262144 < 0xF0) := by omega
        have hb0e : 0xF0 + c.toNat / 262144 < 0xF5 := by omega
        have hb123 : 0x80 ≤ 0x80 + c.toNat / 4096 % 64 ∧ 0x80 + c.toNat / 4096 % 64 < 0xC0 ∧
            0x80 ≤ 0x80 + c.toNat / 64 % 64 ∧ 0x80 + c.toNat / 64 % 64 < 0xC0 ∧
            0x80 ≤ 0x80 + c.toNat % 64 ∧ 0x80 + c.toNat % 64 < 0xC0 := by omega
        have hm : (0xF0 + c.toNat / 262144 - 0xF0) * 262144 +
            (0x80 + c.toNat / 4096 % 64 - 0x80) * 4096 +
            (0x80 + c.toNat / 64 % 64 - 0x80) * 64 + (0x80 + c.toNat % 64 - 0x80) = c.toNat := by
          omega
        have hrange : ¬ (c.toNat < 0x10000 ∨ 0x110000 ≤ c.toNat) := by omega
        simp only [List.append_eq, List.cons_append, List.nil_append, utf8DecodeAux,
          if_neg hb0a, if_neg hb0b, if_neg hb0c, if_neg hb0d, if_pos hb0e, if_pos hb123, hm,
          if_neg hrange, Char.ofNat_toNat]

theorem utf8DecodeAux_encodeList (cs : List Char) :
    ∀ fuel : Nat, cs.length ≤ fuel →
      utf8DecodeAux fuel ((cs.map utf8EncodeChar).flatten) = some cs := by
  induction cs with
  | nil =>
    intro fuel _
    cases fuel <;> simp [utf8DecodeAux]
  | cons c cs ih =>
    intro fuel hfuel
    match fuel with
    | fuel + 1 =>
      simp only [List.map_cons, List.flatten_cons]
      rw [utf8DecodeAux_encodeChar c fuel]
      rw [ih fuel (by simp only [List.length_cons] at hfuel; omega)]
      rfl

theorem utf8EncodeChar_length_pos (c : Char) : 1 ≤ (utf8EncodeChar c).length := by
  unfold utf8EncodeChar
  split_ifs <;> simp

theorem length_le_flatten_encode (cs : List Char) :
    cs.length ≤ ((cs.map utf8EncodeChar).flatten).length := by
  induction cs with
  | nil => simp
  | cons c cs ih =>
    simp only [List.map_cons, List.flatten_cons, List.length_append, List.length_cons]
    have := utf8EncodeChar_length_pos c
    omega

/-- Round-trip: decoding an encoded string gives back the string.  This is the
text/byte transcoding contract the two stores share. -/
theorem bytesDecodeUtf8_encode (s : String) : bytesDecodeUtf8 (strEncodeUtf8 s) = some s := by
  unfold bytesDecodeUtf8 strEncodeUtf8
  rw [utf8DecodeAux_encodeList s.data _ (length_le_flatten_encode s.data)]
  rfl

theorem dotJoined_cons (r0 : List Char) (rs : List (List Char)) :
    dotJoined (r0 :: rs) = r0 ++ ((rs.map (fun r => '.' :: r)).flatten) := by
  induction rs generalizing r0 with
  | nil => simp [dotJoined]
  | cons r1 rs ih =>
    show r0 ++ '.' :: dotJoined (r1 :: rs) = _
    rw [ih r1]
    simp

theorem mapM_decode_encode (l : List String) :
    (l.map strEncodeUtf8).mapM bytesDecodeUtf8 = some l := by
  induction l with
  | nil => rfl
  | cons s l ih =>
    rw [List.map_cons, List.mapM_cons, bytesDecodeUtf8_encode, ih]
    rfl

theorem extractRows_error_of_bad (records : List ScrapedData)
    (h : ∃ r ∈ records, extract_website_from_url r.url = none) :
    ∃ bad ∈ records, extract_website_from_url bad.url = none ∧
      extractRows records = .error (.malformedURL bad.url) := by
  induction records with
  | nil => obtain ⟨r, hr, _⟩ := h; cases hr
  | cons sd sds ih =>
    cases hx : extract_website_from_url sd.url with
    | none =>
      refine ⟨sd, List.mem_cons_self sd sds, hx, ?_⟩
      simp [extractRows, GCPPersistencyManager.extract_database_fields, hx]
    | some w =>
      have hb : ∃ r ∈ sds, extract_website_from_url r.url = none := by
        obtain ⟨r, hr, hrn⟩ := h
        rcases List.mem_cons.mp hr with rfl | hr'
        · exact absurd hx (by rw [hrn]; exact Option.noConfusion)
        · exact ⟨r, hr', hrn⟩
      obtain ⟨bad, hbad, hbn, hrows⟩ := ih hb
      refine ⟨bad, List.mem_cons_of_mem sd hbad, hbn, ?_⟩
      simp [extractRows, GCPPersistencyManager.extract_database_fields, hx, hrows]

/-! ## Claims -/

/-- C1 (corrected), counterexample: the claim fails as stated.  After a
lookup for `x.com` populates the cache and a `save` adds a row for `x.com`,
the next `known_urls("x.com")` call is a cache hit returning the stale set,
different from what a direct, uncached query returns at that instant. -/
theorem c1_counterexample :
    (BigQueryService.get_scraped_urls_by_website c1StaleState "x.com").1 ≠
      scraped_urls_query c1StaleState.table "x.com" := by
  decide

/-- C1 (amended): `known_urls(w)` returns exactly what a direct, uncached
query for `w` against the store at that instant would return — regardless of
hit or miss — provided the cache entry (if any) is still coherent with the
store, i.e. no `save`/`delete` affecting the cached website occurred since
the entry was written; the lookup itself never changes the table. -/
theorem c1_cache_correct (st : BigQueryState) (website : String) (h : CacheCoherent st) :
    (BigQueryService.get_scraped_urls_by_website st website).1 =
      scraped_urls_query st.table website ∧
    (BigQueryService.get_scraped_urls_by_website st website).2.table = st.table := by
  unfold BigQueryService.get_scraped_urls_by_website
  cases hc : st.cached_scraped_urls with
  | none => exact ⟨rfl, rfl⟩
  | some p =>
    obtain ⟨w, df⟩ := p
    by_cases hw : (w == website) = true
    · simp only [hw, if_true]
      exact ⟨(h w df hc).trans (by rw [eq_of_beq hw]), trivial⟩
    · simp only [hw]
      exact ⟨rfl, rfl⟩

theorem c1_cache_correct_witness :
    (BigQueryService.get_scraped_urls_by_website ⟨[xComRow], none, 0⟩ "x.com").1 =
      scraped_urls_query [xComRow] "x.com" ∧
    (BigQueryService.get_scraped_urls_by_website ⟨[xComRow], none, 0⟩ "x.com").2.table =
      [xComRow] :=
  c1_cache_correct ⟨[xComRow], none, 0⟩ "x.com" (fun _ _ h => Option.noConfusion h)

/-- C2 (code bug): with the store of the scenario (known URLs for
`example.com` exactly `{"https://example.com/a"}`), `filter_scraped_urls`
returns all three input URLs — including the already-scraped
`https://example.com/a` — instead of only the unseen two.  Cause: the
membership test `url not in scraped_urls["url"]` asks pandas for membership
in the series' integer index, never in its URL values, so nothing is ever
filtered out.  The store premise of the scenario is re-checked in the first
conjunct. -/
theorem c2_filter_returns_seen_url :
    scraped_urls_query c2State.table "example.com" = ⟨["https://example.com/a"]⟩ ∧
    (GCPPersistencyManager.filter_scraped_urls c2State c2Input).toOption.map Prod.fst =
      some ["https://example.com/a", "https://example.com/b", "https://other.org/c"] := by
  decide

/-- C3 (code bug): after `save([record_with_url="https://x.com/1"])` the row
is in the store (first conjunct), yet `was_scraped("https://x.com/1")`
returns `false` where the claim requires `true` — the pandas index
membership bug makes `filter_website_scraped_urls` keep every URL, so
`was_scraped` never sees an empty filtered list. -/
theorem c3_was_scraped_after_save_is_false :
    (GCPPersistencyManager.save ⟨[], none, 0⟩ [xComRecord]).toOption.map
        (fun st1 => st1.table.map (fun r => r.url)) = some ["https://x.com/1"] ∧
    (GCPPersistencyManager.save ⟨[], none, 0⟩ [xComRecord]).toOption.bind
        (fun st1 =>
          (GCPPersistencyManager.was_scraped st1 "https://x.com/1").toOption.map Prod.fst) =
      some false := by
  decide

/-- C5: if any record of the batch has a URL that cannot be attributed to a
website, `save` fails with `MalformedURL` (raised while the batch is still
being encoded, before anything reaches the store) and the whole batch is
rejected: the result is the error, no new state — no row is persisted. -/
theorem c5_save_rejects_whole_batch (st : BigQueryState) (records : List ScrapedData)
    (h : ∃ r ∈ records, extract_website_from_url r.url = none) :
    ∃ bad ∈ records, extract_website_from_url bad.url = none ∧
      GCPPersistencyManager.save st records = .error (.malformedURL bad.url) := by
  obtain ⟨bad, hbad, hbn, hrows⟩ := extractRows_error_of_bad records h
  exact ⟨bad, hbad, hbn, by simp [GCPPersistencyManager.save, hrows]⟩

theorem c5_save_rejects_whole_batch_witness :
    ∃ bad ∈ [xComRecord, badRecord], extract_website_from_url bad.url = none ∧
      GCPPersistencyManager.save ⟨[], none, 0⟩ [xComRecord, badRecord] =
        .error (.malformedURL bad.url) :=
  c5_save_rejects_whole_batch ⟨[], none, 0⟩ [xComRecord, badRecord] (by decide)

/-- C6: encoding a record's text fields to a database row via
`extract_database_fields` (UTF-8 text to bytes) and decoding those fields as
`get_all` does (UTF-8 bytes to text) reproduces `title`, `content`,
`author`, `date` and `categories` exactly. -/
theorem c6_field_roundtrip (sd : ScrapedData) (row : DatabaseRow)
    (h : GCPPersistencyManager.extract_database_fields sd = .ok row) :
    bytesDecodeUtf8 row.title = some sd.title ∧
    bytesDecodeUtf8 row.content = some sd.content ∧
    bytesDecodeUtf8 row.author = some sd.author ∧
    bytesDecodeUtf8 row.date = some sd.date ∧
    row.categories.mapM bytesDecodeUtf8 = some sd.categories := by
  unfold GCPPersistencyManager.extract_database_fields at h
  cases hx : extract_website_from_url sd.url with
  | none => rw [hx] at h; cases h
  | some w =>
    rw [hx] at h
    cases h
    refine ⟨bytesDecodeUtf8_encode _, bytesDecodeUtf8_encode _, bytesDecodeUtf8_encode _,
      bytesDecodeUtf8_encode _, mapM_decode_encode _⟩

theorem c6_field_roundtrip_witness :
    bytesDecodeUtf8 c6Row.title = some c6Record.title ∧
    bytesDecodeUtf8 c6Row.content = some c6Record.content ∧
    bytesDecodeUtf8 c6Row.author = some c6Record.author ∧
    bytesDecodeUtf8 c6Row.date = some c6Record.date ∧
    c6Row.categories.mapM bytesDecodeUtf8 = some c6Record.categories :=
  c6_field_roundtrip c6Record c6Row rfl

/-- C7 (corrected), counterexample: with `known_urls("b.com")` inserted
between two `known_urls("a.com")` calls on a fresh service, the three calls
issue three remote queries in total, not two as the claim states (the first
conjunct re-checks that the plain double call issues exactly one). -/
theorem c7_counterexample :
    ((BigQueryService.get_scraped_urls_by_website
        (BigQueryService.get_scraped_urls_by_website ⟨[], none, 0⟩ "a.com").2
        "a.com").2.remote_queries = 1) ∧
    ((BigQueryService.get_scraped_urls_by_website
        (BigQueryService.get_scraped_urls_by_website
          (BigQueryService.get_scraped_urls_by_website ⟨[], none, 0⟩ "a.com").2
          "b.com").2 "a.com").2.remote_queries ≠ 2) := by
  decide

/-- C7 (amended): on a fresh service, two consecutive `known_urls("a.com")`
calls issue exactly one remote query (the second is a cache hit); inserting
`known_urls("b.com")` between them makes each `a.com` call issue its own
remote query (two queries for `a.com`), for three remote queries in total. -/
theorem c7_query_counts (table : List DatabaseRow) :
    ((BigQueryService.get_scraped_urls_by_website ⟨table, none, 0⟩ "a.com").2.remote_queries
      = 1) ∧
    ((BigQueryService.get_scraped_urls_by_website
        (BigQueryService.get_scraped_urls_by_website ⟨table, none, 0⟩ "a.com").2
        "a.com").2.remote_queries = 1) ∧
    ((BigQueryService.get_scraped_urls_by_website
        (BigQueryService.get_scraped_urls_by_website ⟨table, none, 0⟩ "a.com").2
        "b.com").2.remote_queries = 2) ∧
    ((BigQueryService.get_scraped_urls_by_website
        (BigQueryService.get_scraped_urls_by_website
          (BigQueryService.get_scraped_urls_by_website ⟨table, none, 0⟩ "a.com").2
          "b.com").2 "a.com").2.remote_queries = 3) :=
  ⟨rfl, rfl, rfl, rfl⟩

/-- C9 (code bug): `get_all` never forwards the `scraped` argument
(`BigQueryService.get_all` does not even accept one), so the result is the
same for `scraped` true, false and null (first conjunct) — a row with no
scraped content is yielded even under `scraped = true` (last conjunct),
where the claim requires it to be excluded.  The bounded part of the claim
holds: at most `limit` records are yielded (second conjunct). -/
theorem c9_scraped_filter_ignored :
    (∀ (st : BigQueryState) (limit : Nat) (s1 s2 : Option Bool),
        GCPPersistencyManager.get_all st limit s1 = GCPPersistencyManager.get_all st limit s2) ∧
    (∀ (st : BigQueryState) (limit : Nat) (s : Option Bool),
        (GCPPersistencyManager.get_all st limit s).1.length ≤ limit) ∧
    c9Row.hasScrapedContent = false ∧
    (GCPPersistencyManager.get_all ⟨[c9Row], none, 0⟩ 5 (some true)).1 =
      [some { url := "https://x.com/2", last_scraped := "", title := "t", content := "",
              author := "a", categories := [], date := "2021-01-01",
              label := none, source := none }] := by
  refine ⟨fun _ _ _ _ => rfl, fun st limit s => ?_, by decide, by decide⟩
  simp only [GCPPersistencyManager.get_all, BigQueryService.get_all, List.length_map,
    List.length_take]
  exact min_le_left _ _

/-- C10: the blob name `get_temp_file`/`get_byte_stream` requests is exactly
the given name when it already starts with the store-level prefix, and
`prefix + "/" + name` otherwise; names returned by `list_temp_urls` always
start with the store-level prefix, so they are passed back verbatim, never
double-prefixed. -/
theorem c10_blob_name_no_double_root (svc : GCSService) (name : String) :
    (pyStartsWith name svc.bucketRoot = true →
      GCPPersistencyManager.get_temp_file_blob_name svc name = name) ∧
    (pyStartsWith name svc.bucketRoot = false →
      GCPPersistencyManager.get_temp_file_blob_name svc name =
        svc.bucketRoot ++ "/" ++ name) ∧
    (∀ run_id : String, name ∈ GCPPersistencyManager.list_temp_urls svc run_id →
      GCPPersistencyManager.get_temp_file_blob_name svc name = name) := by
  refine ⟨fun h => ?_, fun h => ?_, fun run_id hmem => ?_⟩
  · simp [GCPPersistencyManager.get_temp_file_blob_name,
      GCSService.get_byte_stream_blob_name, h]
  · simp [GCPPersistencyManager.get_temp_file_blob_name,
      GCSService.get_byte_stream_blob_name, h]
  · have hfull : pyStartsWith name (svc.bucketRoot ++ "/" ++ run_id) = true :=
      (List.mem_filter.mp hmem).2
    have hroot : pyStartsWith name svc.bucketRoot = true := by
      unfold pyStartsWith at hfull ⊢
      rw [List.isPrefixOf_iff_prefix] at hfull ⊢
      have hdata : (svc.bucketRoot ++ "/" ++ run_id).data =
          svc.bucketRoot.data ++ ("/" ++ run_id).data := by
        rw [String.append_assoc, String.data_append]
      rw [hdata] at hfull
      exact (List.prefix_append svc.bucketRoot.data ("/" ++ run_id).data).trans hfull
    simp [GCPPersistencyManager.get_temp_file_blob_name,
      GCSService.get_byte_stream_blob_name, hroot]

theorem c10_blob_name_no_double_root_witness :
    GCPPersistencyManager.get_temp_file_blob_name c10Svc "dev/scraped_data/run1/urls.csv" =
      "dev/scraped_data/run1/urls.csv" ∧
    GCPPersistencyManager.get_temp_file_blob_name c10Svc "urls.csv" =
      "dev/scraped_data" ++ "/" ++ "urls.csv" ∧
    GCPPersistencyManager.get_temp_file_blob_name c10Svc "dev/scraped_data/run1/urls.csv" =
      "dev/scraped_data/run1/urls.csv" :=
  ⟨(c10_blob_name_no_double_root c10Svc "dev/scraped_data/run1/urls.csv").1 (by decide),
   (c10_blob_name_no_double_root c10Svc "urls.csv").2.1 (by decide),
   (c10_blob_name_no_double_root c10Svc "dev/scraped_data/run1/urls.csv").2.2 "run1"
     (by decide)⟩

/-! ## Partition lemmas for C4 -/

theorem dedupFirstAux_mem (l : List String) :
    ∀ (seen : List String) (w : String), w ∈ dedupFirstAux seen l ↔ (w ∈ l ∧ w ∉ seen) := by
  induction l with
  | nil => intro seen w; simp [dedupFirstAux]
  | cons x xs ih =>
    intro seen w
    by_cases hx : x ∈ seen
    · have hc : seen.contains x = true := by
        simpa [List.contains] using List.elem_iff.mpr hx
      simp only [dedupFirstAux, hc, if_true, ih seen w, List.mem_cons]
      constructor
      · rintro ⟨hw, hs⟩; exact ⟨Or.inr hw, hs⟩
      · rintro ⟨hw | hw, hs⟩
        · exact absurd hx (hw ▸ hs)
        · exact ⟨hw, hs⟩
    · have hc : seen.contains x = false := by
        simp only [List.contains, List.elem_eq_mem]
        exact decide_eq_false hx
      simp only [dedupFirstAux, hc, Bool.false_eq_true, if_false, List.mem_cons,
        ih (x :: seen) w]
      constructor
      · rintro (rfl | ⟨hw, hs⟩)
        · exact ⟨Or.inl rfl, hx⟩
        · exact ⟨Or.inr hw, fun hws => hs (Or.inr hws)⟩
      · rintro ⟨rfl | hw, hs⟩
        · exact Or.inl rfl
        · by_cases hwx : w = x
          · exact Or.inl hwx
          · exact Or.inr ⟨hw, fun hws => by
              rcases hws with h' | h'
              · exact hwx h'
              · exact hs h'⟩

theorem dedupFirstAux_nodup (l : List String) :
    ∀ seen : List String, (dedupFirstAux seen l).Nodup := by
  induction l with
  | nil => intro seen; simp [dedupFirstAux]
  | cons x xs ih =>
    intro seen
    by_cases hx : x ∈ seen
    · have hc : seen.contains x = true := by
        simpa [List.contains] using List.elem_iff.mpr hx
      simpa only [dedupFirstAux, hc, if_true] using ih seen
    · have hc : seen.contains x = false := by
        simp only [List.contains, List.elem_eq_mem]
        exact decide_eq_false hx
      simp only [dedupFirstAux, hc, Bool.false_eq_true, if_false, List.nodup_cons]
      refine ⟨fun hmem => ?_, ih (x :: seen)⟩
      exact ((dedupFirstAux_mem xs (x :: seen) x).mp hmem).2 (List.mem_cons_self x seen)

theorem dedupFirst_mem (l : List String) (w : String) : w ∈ dedupFirst l ↔ w ∈ l := by
  simp [dedupFirst, dedupFirstAux_mem]

theorem dedupFirst_nodup (l : List String) : (dedupFirst l).Nodup :=
  dedupFirstAux_nodup l []

theorem extractWebsites_mem (urls : List String) :
    ∀ ws : List String, extractWebsites urls = .ok ws →
      ∀ u ∈ urls, ∃ w ∈ ws, extract_website_from_url u = some w := by
  induction urls with
  | nil => intro ws _ u hu; cases hu
  | cons v vs ih =>
    intro ws h u hu
    unfold extractWebsites at h
    cases hx : extract_website_from_url v with
    | none => rw [hx] at h; cases h
    | some w =>
      rw [hx] at h
      cases hrest : extractWebsites vs with
      | error e => rw [hrest] at h; cases h
      | ok ws' =>
        rw [hrest] at h
        cases h
        rcases List.mem_cons.mp hu with rfl | hu'
        · exact ⟨w, List.mem_cons_self w ws', hx⟩
        · obtain ⟨w', hw', hxw'⟩ := ih ws' hrest u hu'
          exact ⟨w', List.mem_cons_of_mem w hw', hxw'⟩

theorem join_groups_perm :
    ∀ (sites : List String) (urls : List String), sites.Nodup →
      (∀ u ∈ urls, ∃ w ∈ sites, extract_website_from_url u = some w) →
      ((sites.map (urlsGroup urls)).flatten).Perm urls := by
  intro sites
  induction sites with
  | nil =>
    intro urls _ h
    cases urls with
    | nil => simp
    | cons u us =>
      obtain ⟨w, hw, _⟩ := h u (List.mem_cons_self u us)
      cases hw
  | cons w rest ih =>
    intro urls hnd h
    obtain ⟨hwrest, hndrest⟩ := List.nodup_cons.mp hnd
    have key : ∀ w' ∈ rest,
        urlsGroup urls w' =
          urlsGroup (urls.filter
            (fun u => !(extract_website_from_url u == some w))) w' := by
      intro w' hw'
      unfold urlsGroup
      rw [List.filter_filter]
      apply List.filter_congr
      intro u _
      cases hq : extract_website_from_url u == some w' with
      | false => simp
      | true =>
        have hxu : extract_website_from_url u = some w' := eq_of_beq hq
        have hne : (extract_website_from_url u == some w) = false := by
          apply beq_eq_false_iff_ne.mpr
          rw [hxu]
          intro hcontra
          exact hwrest (by
            have : w' = w := by
              have := Option.some.inj hcontra
              exact this
            exact this ▸ hw')
        simp [hne]
    have cover : ∀ u ∈ urls.filter (fun u => !(extract_website_from_url u == some w)),
        ∃ w' ∈ rest, extract_website_from_url u = some w' := by
      intro u hu
      obtain ⟨hu', hcond⟩ := List.mem_filter.mp hu
      obtain ⟨w0, hw0, hxw0⟩ := h u hu'
      rcases List.mem_cons.mp hw0 with rfl | hw0'
      · exfalso
        rw [hxw0] at hcond
        simp at hcond
      · exact ⟨w0, hw0', hxw0⟩
    have ihperm := ih (urls.filter (fun u => !(extract_website_from_url u == some w)))
      hndrest cover
    have hmapeq : rest.map (urlsGroup urls) =
        rest.map (urlsGroup (urls.filter
          (fun u => !(extract_website_from_url u == some w)))) :=
      List.map_congr_left key
    have h1 : ((w :: rest).map (urlsGroup urls)).flatten =
        urlsGroup urls w ++ (rest.map (urlsGroup urls)).flatten := by
      simp
    rw [h1, hmapeq]
    exact (List.Perm.append_left (urlsGroup urls w) ihperm).trans
      (List.filter_append_perm (fun u => extract_website_from_url u == some w) urls)

theorem filterScrapedUrlsLoop_subset (urls : List String) :
    ∀ (sites : List String) (st : BigQueryState),
      ∀ u ∈ (filterScrapedUrlsLoop st urls sites).1, u ∈ urls := by
  intro sites
  induction sites with
  | nil => intro st u hu; cases hu
  | cons w rest ih =>
    intro st u hu
    unfold filterScrapedUrlsLoop at hu
    rcases List.mem_append.mp hu with hl | hr
    · have h1 := (List.mem_filter.mp hl).1
      exact (List.mem_filter.mp h1).1
    · exact ih _ u hr

/-- C4: in `filter_scraped_urls`, the per-website groups are pairwise
disjoint (no URL can have two website keys), the concatenation of the groups
over the distinct website keys is a permutation of the input batch (each
input URL appears exactly once — no duplication, no omission), and the
returned unseen list is a sublist-subset of the input batch. -/
theorem c4_partition_correct (urls ws : List String)
    (h : extractWebsites urls = .ok ws) :
    (∀ w1 w2 : String, w1 ≠ w2 → ∀ u, u ∈ urlsGroup urls w1 → u ∉ urlsGroup urls w2) ∧
    (((dedupFirst ws).map (urlsGroup urls)).flatten).Perm urls ∧
    (∀ (st : BigQueryState) (res : List String) (st' : BigQueryState),
      GCPPersistencyManager.filter_scraped_urls st urls = .ok (res, st') →
        ∀ u ∈ res, u ∈ urls) := by
  refine ⟨?_, ?_, ?_⟩
  · intro w1 w2 hne u h1 h2
    have hx1 : extract_website_from_url u = some w1 :=
      eq_of_beq (List.mem_filter.mp h1).2
    have hx2 : extract_website_from_url u = some w2 :=
      eq_of_beq (List.mem_filter.mp h2).2
    exact hne (Option.some.inj (hx1 ▸ hx2))
  · apply join_groups_perm (dedupFirst ws) urls (dedupFirst_nodup ws)
    intro u hu
    obtain ⟨w, hw, hx⟩ := extractWebsites_mem urls ws h u hu
    exact ⟨w, (dedupFirst_mem ws w).mpr hw, hx⟩
  · intro st res st' hres
    unfold GCPPersistencyManager.filter_scraped_urls at hres
    rw [h] at hres
    have hpair : filterScrapedUrlsLoop st urls (dedupFirst ws) = (res, st') :=
      Except.ok.inj hres
    intro u hu
    exact filterScrapedUrlsLoop_subset urls (dedupFirst ws) st u (by rw [hpair] at *; exact hu)

theorem c4_partition_correct_witness :
    (∀ w1 w2 : String, w1 ≠ w2 → ∀ u, u ∈ urlsGroup c2Input w1 → u ∉ urlsGroup c2Input w2) ∧
    (((dedupFirst ["example.com", "example.com", "other.org"]).map
        (urlsGroup c2Input)).flatten).Perm c2Input ∧
    (∀ (st : BigQueryState) (res : List String) (st' : BigQueryState),
      GCPPersistencyManager.filter_scraped_urls st c2Input = .ok (res, st') →
        ∀ u ∈ res, u ∈ c2Input) :=
  c4_partition_correct c2Input ["example.com", "example.com", "other.org"] rfl

/-! ## Regex lemmas for C8 -/

theorem takeWhile_word_append (w : List Char) (d : Char) (r : List Char)
    (hw : ∀ c ∈ w, isWordChar c) (hd : isWordChar d = false) :
    (w ++ d :: r).takeWhile isWordChar = w ∧ (w ++ d :: r).dropWhile isWordChar = d :: r := by
  induction w with
  | nil => simp [List.takeWhile_cons, List.dropWhile_cons, hd]
  | cons a w' ih =>
    have ha : isWordChar a = true := hw a (List.mem_cons_self a w')
    have hw' : ∀ c ∈ w', isWordChar c := fun c hc => hw c (List.mem_cons_of_mem a hc)
    obtain ⟨ht, hdr⟩ := ih hw'
    simp [List.takeWhile_cons, List.dropWhile_cons, ha, ht, hdr]

theorem takeWhile_word_ne_nil (w : List Char) (r : List Char)
    (hne : w ≠ []) (hw : ∀ c ∈ w, isWordChar c) :
    (w ++ r).takeWhile isWordChar ≠ [] := by
  cases w with
  | nil => exact absurd rfl hne
  | cons a w' =>
    have ha : isWordChar a = true := hw a (List.mem_cons_self a w')
    simp [List.takeWhile_cons, ha]

theorem matchDots_spec (fuel : Nat) :
    ∀ t : List Char, t.length ≤ fuel →
      (matchDots fuel t).1 ++ (matchDots fuel t).2 = t ∧
      ∃ runs : List (List Char),
        (matchDots fuel t).1 = (runs.map (fun r => '.' :: r)).flatten ∧
        ∀ r ∈ runs, r ≠ [] ∧ ∀ c ∈ r, isWordChar c := by
  induction fuel with
  | zero =>
    intro t ht
    cases t with
    | nil => exact ⟨rfl, [], rfl, by simp⟩
    | cons c rest => simp at ht
  | succ fuel ih =>
    intro t ht
    cases t with
    | nil => exact ⟨rfl, [], rfl, by simp⟩
    | cons c rest =>
      by_cases hc : c = '.'
      · subst hc
        by_cases hrun : rest.takeWhile isWordChar = []
        · simp only [matchDots, if_pos rfl, hrun, if_true]
          exact ⟨rfl, [], rfl, by simp⟩
        · have hlen : (rest.dropWhile isWordChar).length ≤ fuel := by
            have h1 : (rest.dropWhile isWordChar).length ≤ rest.length :=
              (List.dropWhile_sublist isWordChar).length_le
            simp only [List.length_cons] at ht
            omega
          obtain ⟨hsplit, runs, hruns, hprops⟩ := ih (rest.dropWhile isWordChar) hlen
          simp only [matchDots, if_pos rfl, hrun, if_false]
          constructor
          · show ('.' :: (rest.takeWhile isWordChar ++
                (matchDots fuel (rest.dropWhile isWordChar)).1)) ++
                (matchDots fuel (rest.dropWhile isWordChar)).2 = '.' :: rest
            rw [List.cons_append, List.append_assoc, hsplit,
              List.takeWhile_append_dropWhile]
          · refine ⟨rest.takeWhile isWordChar :: runs, ?_, ?_⟩
            · show '.' :: (rest.takeWhile isWordChar ++
                  (matchDots fuel (rest.dropWhile isWordChar)).1) = _
              rw [hruns]
              simp
            · intro r hr
              rcases List.mem_cons.mp hr with rfl | hr'
              · exact ⟨hrun, fun c hc => List.mem_takeWhile_imp hc⟩
              · exact hprops r hr'
      · simp only [matchDots, if_neg hc]
        exact ⟨rfl, [], rfl, by simp⟩

theorem matchAt_sound (t m : List Char) (h : matchAt t = some m) :
    (∃ post, m ++ post = t) ∧ WebsiteMatch m := by
  unfold matchAt at h
  by_cases h1 : t.takeWhile isWordChar = []
  · rw [if_pos h1] at h; cases h
  · rw [if_neg h1] at h
    cases hd : t.dropWhile isWordChar with
    | nil => rw [hd] at h; cases h
    | cons c r2 =>
      rw [hd] at h
      simp only [matchAfterRun] at h
      by_cases hc : c = '.'
      · rw [if_pos hc] at h
        by_cases h2 : r2.takeWhile isWordChar = []
        · rw [if_pos h2] at h; cases h
        · rw [if_neg h2] at h
          have hm : m = t.takeWhile isWordChar ++
              c :: (r2.takeWhile isWordChar ++
                (matchDots r2.length (r2.dropWhile isWordChar)).1) :=
            (Option.some.inj h).symm
          subst hc
          obtain ⟨hsplit, runs, hruns, hprops⟩ :=
            matchDots_spec r2.length (r2.dropWhile isWordChar)
              ((List.dropWhile_sublist isWordChar).length_le)
          constructor
          · refine ⟨(matchDots r2.length (r2.dropWhile isWordChar)).2, ?_⟩
            rw [hm, List.append_assoc]
            simp only [List.cons_append, List.append_assoc]
            rw [hsplit, List.takeWhile_append_dropWhile, ← hd,
              List.takeWhile_append_dropWhile]
          · refine ⟨t.takeWhile isWordChar :: r2.takeWhile isWordChar :: runs,
              by simp, ?_, ?_⟩
            · intro r hr
              rcases List.mem_cons.mp hr with rfl | hr'
              · exact ⟨h1, fun ch hch => List.mem_takeWhile_imp hch⟩
              · rcases List.mem_cons.mp hr' with rfl | hr''
                · exact ⟨h2, fun ch hch => List.mem_takeWhile_imp hch⟩
                · exact hprops r hr''
            · rw [hm]
              show _ = dotJoined (t.takeWhile isWordChar :: r2.takeWhile isWordChar :: runs)
              have hdj : dotJoined (t.takeWhile isWordChar :: r2.takeWhile isWordChar :: runs)
                  = t.takeWhile isWordChar ++
                    '.' :: dotJoined (r2.takeWhile isWordChar :: runs) := rfl
              rw [hdj, dotJoined_cons, ← hruns]
      · rw [if_neg hc] at h; cases h

theorem reSearchList_sound : ∀ t m : List Char, reSearchList t = some m →
    m <:+: t ∧ WebsiteMatch m := by
  intro t
  induction t with
  | nil => intro m h; cases h
  | cons c rest ih =>
    intro m h
    unfold reSearchList at h
    cases hma : matchAt (c :: rest) with
    | some mm =>
      rw [hma] at h
      obtain ⟨⟨post, hpost⟩, hlang⟩ := matchAt_sound (c :: rest) mm hma
      rw [← Option.some.inj h]
      exact ⟨⟨[], post, by simpa using hpost⟩, hlang⟩
    | none =>
      rw [hma] at h
      obtain ⟨hinf, hlang⟩ := ih m h
      exact ⟨List.infix_cons hinf, hlang⟩

theorem matchAt_some_of_shape (w1 w2 rest : List Char)
    (hne1 : w1 ≠ []) (hw1 : ∀ c ∈ w1, isWordChar c)
    (hne2 : w2 ≠ []) (hw2 : ∀ c ∈ w2, isWordChar c) :
    (matchAt (w1 ++ '.' :: (w2 ++ rest))).isSome := by
  have hdot : isWordChar '.' = false := by decide
  obtain ⟨htw, hdw⟩ := takeWhile_word_append w1 '.' (w2 ++ rest) hw1 hdot
  have htw1 : (w1 ++ '.' :: (w2 ++ rest)).takeWhile isWordChar ≠ [] := by
    rw [htw]; exact hne1
  have htw2 : (w2 ++ rest).takeWhile isWordChar ≠ [] :=
    takeWhile_word_ne_nil w2 rest hne2 hw2
  unfold matchAt
  rw [if_neg htw1, hdw]
  simp only [matchAfterRun, if_true]
  rw [if_neg htw2]
  rfl

theorem reSearchList_some_append : ∀ pre suf : List Char, (matchAt suf).isSome →
    (reSearchList (pre ++ suf)).isSome := by
  intro pre
  induction pre with
  | nil =>
    intro suf h
    cases suf with
    | nil => simp [matchAt] at h
    | cons c rest =>
      show (reSearchList (c :: rest)).isSome
      unfold reSearchList
      cases hma : matchAt (c :: rest) with
      | some m => rfl
      | none => rw [hma] at h; cases h
  | cons p pre' ih =>
    intro suf h
    show (reSearchList (p :: (pre' ++ suf))).isSome
    unfold reSearchList
    cases hma : matchAt (p :: (pre' ++ suf)) with
    | some m => rfl
    | none => exact ih suf h

/-- C8: `extract_website_from_url` is a function (hence deterministic) and is
characterised by the pattern `(\w+\.)+\w+`: whenever it returns a website,
that website is a substring of the URL fully matching the pattern (one or
more dot-separated label groups followed by a top label); whenever it fails
with `MalformedURL` (`none`), no substring of the input matches the pattern.
On the spec's examples: `https://news.example.com/a/b` yields
`news.example.com`, and `not a url` fails. -/
theorem c8_extract_website_characterization :
    (∀ url : String,
      (∀ w : String, extract_website_from_url url = some w →
        w.data <:+: url.data ∧ WebsiteMatch w.data) ∧
      (extract_website_from_url url = none →
        ∀ v : List Char, v <:+: url.data → ¬ WebsiteMatch v)) ∧
    extract_website_from_url "https://news.example.com/a/b" = some "news.example.com" ∧
    extract_website_from_url "not a url" = none := by
  refine ⟨fun url => ⟨?_, ?_⟩, by decide, by decide⟩
  · intro w h
    unfold extract_website_from_url at h
    cases hs : reSearchList url.data with
    | none => rw [hs] at h; cases h
    | some m =>
      rw [hs] at h
      have hw : String.mk m = w := Option.some.inj h
      obtain ⟨hinf, hlang⟩ := reSearchList_sound url.data m hs
      constructor
      · rw [← hw]; exact hinf
      · rw [← hw]; exact hlang
  · intro h v hinf hlang
    obtain ⟨runs, hlen, hprops, hv⟩ := hlang
    match runs, hlen with
    | r1 :: r2 :: rs, _ =>
      have hr1 := hprops r1 (List.mem_cons_self r1 (r2 :: rs))
      have hr2 := hprops r2 (List.mem_cons_of_mem r1 (List.mem_cons_self r2 rs))
      have hshape : v = r1 ++ '.' :: (r2 ++ ((rs.map (fun r => '.' :: r)).flatten)) := by
        rw [hv]
        show dotJoined (r1 :: r2 :: rs) = _
        have hdj : dotJoined (r1 :: r2 :: rs) = r1 ++ '.' :: dotJoined (r2 :: rs) := rfl
        rw [hdj, dotJoined_cons]
      obtain ⟨pre, post, hsplit⟩ := hinf
      have hmatch : (matchAt (v ++ post)).isSome := by
        have hassoc : v ++ post =
            r1 ++ '.' :: (r2 ++ (((rs.map (fun r => '.' :: r)).flatten) ++ post)) := by
          rw [hshape]
          simp [List.append_assoc]
        rw [hassoc]
        exact matchAt_some_of_shape r1 r2 _ hr1.1 hr1.2 hr2.1 hr2.2
      have hsearch : (reSearchList url.data).isSome := by
        rw [← hsplit, List.append_assoc]
        exact reSearchList_some_append pre (v ++ post) hmatch
      unfold extract_website_from_url at h
      cases hs : reSearchList url.data with
      | some m => rw [hs] at h; cases h
      | none => rw [hs] at hsearch; cases hsearch

theorem c8_extract_website_characterization_witness :
    extract_website_from_url "https://news.example.com/a/b" = some "news.example.com" ∧
    extract_website_from_url "not a url" = none :=
  ⟨c8_extract_website_characterization.2.1, c8_extract_website_characterization.2.2⟩

theorem c7_query_counts_witness :
    ((BigQueryService.get_scraped_urls_by_website ⟨[], none, 0⟩ "a.com").2.remote_queries
      = 1) ∧
    ((BigQueryService.get_scraped_urls_by_website
        (BigQueryService.get_scraped_urls_by_website ⟨[], none, 0⟩ "a.com").2
        "a.com").2.remote_queries = 1) ∧
    ((BigQueryService.get_scraped_urls_by_website
        (BigQueryService.get_scraped_urls_by_website ⟨[], none, 0⟩ "a.com").2
        "b.com").2.remote_queries = 2) ∧
    ((BigQueryService.get_scraped_urls_by_website
        (BigQueryService.get_scraped_urls_by_website
          (BigQueryService.get_scraped_urls_by_website ⟨[], none, 0⟩ "a.com").2
          "b.com").2 "a.com").2.remote_queries = 3) :=
  c7_query_counts []
